import Mathlib

/-!
Shallow embedding of `hyoban/iconify-import-svg` (`src/index.ts`, synchronous
variant) and proofs about its icon-processing and collection-import pipeline.

The library collaborators (`@iconify/tools`, `@iconify/utils`) are modelled at
their interface boundary: a parsed color is a canonical numeric value or a
keyword, `isEmptyColor`/`compareColors` are the structural tests the code
relies on, `parseColors` applies the repository's callback to every
color-bearing attribute value of a document, and the filesystem is a tree of
directories with files and subdirectories, where reading an unreadable
directory raises an error.
-/

set_option maxHeartbeats 1000000

/-- Decidable equality for `Except`, used to evaluate the model on concrete
inputs. -/
instance instDecEqExcept {ε α : Type} [DecidableEq ε] [DecidableEq α] : DecidableEq (Except ε α) := fun x y =>
  match x, y with
  | Except.error a, Except.error b =>
    if h : a = b then isTrue (by rw [h]) else isFalse (fun hh => by cases hh; exact h rfl)
  | Except.error _, Except.ok _ => isFalse (fun hh => by cases hh)
  | Except.ok _, Except.error _ => isFalse (fun hh => by cases hh)
  | Except.ok a, Except.ok b =>
    if h : a = b then isTrue (by rw [h]) else isFalse (fun hh => by cases hh; exact h rfl)

/-- A parsed color in canonical numeric form. The alpha channel is an exact
rational so that equality of parsed colors is structural, matching the
exact-equality comparison performed by `compareColors`. -/
structure RGB where
  r : Nat
  g : Nat
  b : Nat
  alpha : Rat
deriving DecidableEq, Repr

/-- Result of parsing one color string: named/hex/functional colors all map to
a canonical `rgb` value, the keywords `none`, `transparent` and `currentColor`
are kept as keywords, and other parseable values (gradients, urls) are kept
verbatim. -/
inductive Color where
  | rgb (c : RGB)
  | keywordNone
  | keywordTransparent
  | keywordCurrent
  | other (s : String)
deriving DecidableEq, Repr

/-- Model of `isEmptyColor` from `@iconify/tools`: true exactly for the
keywords `none` and `transparent`. -/
def isEmptyColor (c : Color) : Bool :=
  match c with
  | Color.keywordNone => true
  | Color.keywordTransparent => true
  | _ => false

/-- Model of `compareColors` from `@iconify/utils`: exact structural equality
of the parsed values, not perceptual distance. -/
def compareColors (c1 c2 : Color) : Bool :=
  c1 == c2

/-- Model of `stringToColor('black')` from `src/index.ts` line 58. -/
def blackColor : Color :=
  Color.rgb ⟨0, 0, 0, 1⟩

/-- Model of `stringToColor('white')` from `src/index.ts` line 59. -/
def whiteColor : Color :=
  Color.rgb ⟨255, 255, 255, 1⟩

/-- Outcome of the `parseColors` callback for one color value. -/
inductive ColorAction where
  | invalid
  | keep (c : Color)
  | inherit
  | remove
deriving DecidableEq, Repr

/-- The `parseColors` callback of `processIconSet` (`src/index.ts` lines
62-85). The argument is the parse result for one color value: `Option.none`
when the color string cannot be parsed (the callback throws), otherwise the
parsed color. -/
def colorCallback (color : Option Color) : ColorAction :=
  match color with
  | Option.none => ColorAction.invalid
  | some c =>
    if isEmptyColor c then ColorAction.keep c
    else if compareColors c blackColor then ColorAction.inherit
    else if compareColors c whiteColor then ColorAction.remove
    else ColorAction.keep c

/-- One shape of an icon document: the parsed values of its color-bearing
attributes (`Option.none` marks a value that fails to parse as a color). -/
structure Shape where
  colors : List (Option Color)
deriving DecidableEq, Repr

/-- An icon document: `wellFormed` records whether `cleanupSVG` accepts the
document (the library throws on structurally invalid icons), and `shapes` are
its paintable elements. -/
structure Svg where
  wellFormed : Bool
  shapes : List Shape
deriving DecidableEq, Repr

/-- A shape contains a color value whose parse fails, so visiting it makes
the callback throw. -/
def shapeHasInvalidColor (s : Shape) : Bool :=
  s.colors.any (fun c => colorCallback c == ColorAction.invalid)

/-- The callback answers `remove` for some color of this shape, so
`parseColors` deletes the shape from the tree. -/
def shapeRemoved (s : Shape) : Bool :=
  s.colors.any (fun c => colorCallback c == ColorAction.remove)

/-- A shape carries the exact pure-white color. -/
def shapeHasWhite (s : Shape) : Bool :=
  s.colors.any (fun c => c == some whiteColor)

/-- Rewrite of a single color value in a kept shape: black becomes
`currentColor`, every other kept value stays as is. -/
def rewriteColorValue (c : Option Color) : Option Color :=
  match colorCallback c with
  | ColorAction.inherit => some Color.keywordCurrent
  | ColorAction.keep c2 => some c2
  | _ => c

/-- Rewrite every color value of a kept shape. -/
def rewriteShape (s : Shape) : Shape :=
  ⟨s.colors.map rewriteColorValue⟩

/-- The document contains some color value that fails to parse. -/
def svgHasUnparseable (svg : Svg) : Bool :=
  svg.shapes.any shapeHasInvalidColor

/-- Model of the `parseColors` call of `processIconSet` (`src/index.ts` lines
60-86): the callback throws on any unparseable color value, shapes for which
it answers `remove` are deleted, and the remaining color values are replaced
by the callback's answers. -/
def parseColorsModel (svg : Svg) : Except String Svg :=
  if svg.shapes.any shapeHasInvalidColor then
    Except.error "invalid color"
  else
    Except.ok ⟨svg.wellFormed, (svg.shapes.filter (fun s => !shapeRemoved s)).map rewriteShape⟩

/-- The try-block of `processIconSet` for one icon document (`src/index.ts`
lines 51-99): `cleanupSVG` throws on a structurally invalid icon, then
`parseColors` runs the color callback. Modelled from the spec: a document left
without visible geometry after white-shape removal fails validation (the
optimizer/re-import step of the library rejects an empty document). -/
def processSvg (svg : Svg) : Except String Svg :=
  if svg.wellFormed = false then Except.error "invalid icon" else
  match parseColorsModel svg with
  | Except.error e => Except.error e
  | Except.ok svg2 =>
    if svg2.shapes.isEmpty then Except.error "no geometry" else Except.ok svg2

/-- One entry of an icon set: an icon (with `Option.none` when
`iconSet.toSVG` yields no SVG instance for it) or an alias. -/
inductive IconEntry where
  | icon (svg : Option Svg)
  | aliasOf (target : String)
deriving DecidableEq, Repr

/-- An icon set: a mapping from names to entries, kept as an association
list in iteration order. -/
structure IconSet where
  entries : List (String × IconEntry)
deriving DecidableEq, Repr

/-- The body of the `forEachSync` loop of `processIconSet` for one entry
(`src/index.ts` lines 39-105): aliases are skipped, icons without an SVG
instance are skipped, and for the rest the processed document replaces the
entry on success while a failure yields removal plus one warning naming the
icon. The first component is the surviving entry, the second the emitted
diagnostic `(icon name, reason)`. -/
def processEntry (name : String) (e : IconEntry) : Option IconEntry × Option (String × String) :=
  match e with
  | IconEntry.aliasOf t => (some (IconEntry.aliasOf t), Option.none)
  | IconEntry.icon Option.none => (some (IconEntry.icon Option.none), Option.none)
  | IconEntry.icon (some svg) =>
    match processSvg svg with
    | Except.ok svg2 => (some (IconEntry.icon (some svg2)), Option.none)
    | Except.error msg => (Option.none, some (name, msg))

/-- Model of `processIconSet` (`src/index.ts` lines 35-110) together with the
warnings it prints: every entry is processed, entries pushed to
`iconsToRemove` are removed afterwards, and each removal logs one
diagnostic. -/
def processIconSetD (s : IconSet) : IconSet × List (String × String) :=
  (⟨s.entries.filterMap (fun ne => (processEntry ne.1 ne.2).1.map (fun e2 => (ne.1, e2)))⟩,
   s.entries.filterMap (fun ne => (processEntry ne.1 ne.2).2))

/-- Model of `processIconSet` (`src/index.ts` lines 35-110), result only. -/
def processIconSet (s : IconSet) : IconSet :=
  (processIconSetD s).1

/-- The `icons` field of `iconSet.export()`: one entry per icon of the set
(aliases are exported separately), carrying the icon's document. -/
def exportIcons (s : IconSet) : List (String × Option Svg) :=
  s.entries.filterMap (fun ne =>
    match ne.2 with
    | IconEntry.icon osvg => some (ne.1, osvg)
    | _ => Option.none)

/-- The keys of the `icons` field of `iconSet.export()`. -/
def exportIconNames (s : IconSet) : List String :=
  (exportIcons s).map Prod.fst

/-- One file of a directory: its name and, when the name carries the vector
extension and the file parses as a vector document, its parsed content
(`Option.none` content marks a file the loader skips with a warning under
the `ignoreImportErrors: warn` policy). -/
structure SvgFile where
  name : String
  content : Option Svg
deriving DecidableEq, Repr

/-- A directory tree: whether `fs.readdirSync` succeeds on the directory,
the files it directly contains, and its named subdirectories, in the order
the directory listing yields them. -/
inductive DirTree where
  | mk (readable : Bool) (files : List SvgFile) (subdirs : List (String × DirTree))

/-- The test `entry.name.endsWith('.svg')` from `src/index.ts` line 158,
computed on the character list of the name. -/
def hasSvgExt (s : String) : Bool :=
  s.data.reverse.take 4 == ['g', 'v', 's', '.']

/-- Strip the `.svg` extension to obtain the icon name the loader derives
from a file name. -/
def dropSvgExt (s : String) : String :=
  String.mk (s.data.take (s.data.length - 4))

/-- Directly contained vector files make a directory qualify. -/
def qualifies (files : List SvgFile) : Bool :=
  files.any (fun f => hasSvgExt f.name)

mutual

/-- The inner `traverse` of `findSvgDirectories` (`src/index.ts` lines
151-174): reading an unreadable directory throws (`fs.readdirSync`, no
catch anywhere in the function), a directory with a vector file directly in
it is pushed before its subdirectories are visited, and subdirectories are
visited in listing order. The accumulated path (segments from the scan
root) together with the directory's own files stands for the absolute
directory path the code records, since on a filesystem the path determines
the directory. -/
def traverseDir (p : List String) : DirTree → Except Unit (List (List String × List SvgFile))
  | DirTree.mk readable files subdirs =>
    if readable = false then Except.error () else
    match traverseDirList p subdirs with
    | Except.error e => Except.error e
    | Except.ok rest =>
      Except.ok ((if qualifies files then [(p, files)] else []) ++ rest)

/-- Traversal of a sublist of subdirectories, aborting at the first error. -/
def traverseDirList (p : List String) : List (String × DirTree) → Except Unit (List (List String × List SvgFile))
  | [] => Except.ok []
  | (n, t) :: rest =>
    match traverseDir (p ++ [n]) t with
    | Except.error e => Except.error e
    | Except.ok r1 =>
      match traverseDirList p rest with
      | Except.error e => Except.error e
      | Except.ok r2 => Except.ok (r1 ++ r2)

end

/-- Model of `findSvgDirectories` (`src/index.ts` lines 148-178). -/
def findSvgDirectories (t : DirTree) : Except Unit (List (List String × List SvgFile)) :=
  traverseDir [] t

mutual

/-- All directories of the tree with their paths from the root and their own
files, the root first, then the subtrees in listing order. -/
def nodesWithPaths (p : List String) : DirTree → List (List String × List SvgFile)
  | DirTree.mk _ files subdirs => (p, files) :: nodesWithPathsList p subdirs

/-- List version of `nodesWithPaths`. -/
def nodesWithPathsList (p : List String) : List (String × DirTree) → List (List String × List SvgFile)
  | [] => []
  | (n, t) :: rest => nodesWithPaths (p ++ [n]) t ++ nodesWithPathsList p rest

end

mutual

/-- Every directory of the tree is readable. -/
def allReadable : DirTree → Bool
  | DirTree.mk readable _ subdirs => readable && allReadableList subdirs

/-- List version of `allReadable`. -/
def allReadableList : List (String × DirTree) → Bool
  | [] => true
  | (_, t) :: rest => allReadable t && allReadableList rest

end

mutual

/-- Some directory of the tree is unreadable. -/
def hasUnreadable : DirTree → Bool
  | DirTree.mk readable _ subdirs => !readable || hasUnreadableList subdirs

/-- List version of `hasUnreadable`. -/
def hasUnreadableList : List (String × DirTree) → Bool
  | [] => false
  | (_, t) :: rest => hasUnreadable t || hasUnreadableList rest

end

mutual

/-- Sibling directory names are distinct everywhere in the tree, as a real
directory listing guarantees. -/
def uniqueNames : DirTree → Bool
  | DirTree.mk _ _ subdirs => decide ((subdirs.map Prod.fst).Nodup) && uniqueNamesList subdirs

/-- List version of `uniqueNames`. -/
def uniqueNamesList : List (String × DirTree) → Bool
  | [] => true
  | (_, t) :: rest => uniqueNames t && uniqueNamesList rest

end

/-- A directory name that is nonempty and avoids the separator character. -/
def goodName (s : String) : Bool :=
  decide (s.data ≠ []) && decide ('-' ∉ s.data)

mutual

/-- Every directory name in the tree is nonempty and avoids the separator
character. -/
def namesClean : DirTree → Bool
  | DirTree.mk _ _ subdirs => (subdirs.all fun nt => goodName nt.1) && namesCleanList subdirs

/-- List version of `namesClean`. -/
def namesCleanList : List (String × DirTree) → Bool
  | [] => true
  | (_, t) :: rest => namesClean t && namesCleanList rest

end

/-- Join character lists with the separator `'-'`, the way
`Array.prototype.join('-')` joins path segments. -/
def charJoin : List (List Char) → List Char
  | [] => []
  | [s] => s
  | s :: t :: rest => s ++ '-' :: charJoin (t :: rest)

/-- The `relativePath.split(path.sep).join('-')` of `src/index.ts` line 217,
taking the path segments directly. -/
def joinSegs (l : List String) : String :=
  String.mk (charJoin (l.map String.data))

/-- The key expression of `src/index.ts` line 229: a supplied namespace is
prepended with the separator exactly when it is truthy, that is, a string
other than the empty one. -/
def collectionKey (ns : Option String) (pathKey : String) : String :=
  match ns with
  | some s => if s = "" then pathKey else s ++ "-" ++ pathKey
  | Option.none => pathKey

/-- Model of `importDirectorySync(dir, { includeSubDirs: false })` on the
files of one directory: every file with the vector extension whose content
parses becomes an icon named by its base name; files without the extension
are ignored and files that fail to parse are skipped with a warning. -/
def buildCollection (files : List SvgFile) : IconSet :=
  ⟨files.filterMap (fun f =>
    if hasSvgExt f.name then
      f.content.map (fun svg => (dropSvgExt f.name, IconEntry.icon (some svg)))
    else Option.none)⟩

mutual

/-- All files of a tree, flattened, for `includeSubDirs: true`; an
unreadable directory anywhere makes the scan throw. -/
def collectFilesAll : DirTree → Except Unit (List SvgFile)
  | DirTree.mk readable files subdirs =>
    if readable = false then Except.error () else
    match collectFilesAllList subdirs with
    | Except.error e => Except.error e
    | Except.ok rest => Except.ok (files ++ rest)

/-- List version of `collectFilesAll`. -/
def collectFilesAllList : List (String × DirTree) → Except Unit (List SvgFile)
  | [] => Except.ok []
  | (_, t) :: rest =>
    match collectFilesAll t with
    | Except.error e => Except.error e
    | Except.ok r1 =>
      match collectFilesAllList rest with
      | Except.error e => Except.error e
      | Except.ok r2 => Except.ok (r1 ++ r2)

end

/-- The files of one directory alone, for `includeSubDirs: false`. -/
def ownFilesE : DirTree → Except Unit (List SvgFile)
  | DirTree.mk false _ _ => Except.error ()
  | DirTree.mk true files _ => Except.ok files

/-- Model of `importSvgCollection` (`src/index.ts` lines 130-143): load the
directory (optionally flattening subdirectory files into the same set),
process the icon set, and export its icons. -/
def importSvgCollection (t : DirTree) (includeSubDirs : Bool) : Except Unit (List (String × Option Svg)) :=
  match (if includeSubDirs then collectFilesAll t else ownFilesE t) with
  | Except.error e => Except.error e
  | Except.ok files => Except.ok (exportIcons (processIconSet (buildCollection files)))

/-- Model of `importSvgCollections` (`src/index.ts` lines 206-234): find the
qualifying directories, import each without subdirectories, process it, and
record its export under the derived key when it still has icons. The result
keeps the insertion order of the JS object as an association list. -/
def importSvgCollections (ns : Option String) (t : DirTree) : Except Unit (List (String × List (String × Option Svg))) :=
  match findSvgDirectories t with
  | Except.error e => Except.error e
  | Except.ok dirs =>
    Except.ok (dirs.filterMap (fun pf =>
      let exported := exportIcons (processIconSet (buildCollection pf.2))
      if exported.length > 0 then some (collectionKey ns (joinSegs pf.1), exported)
      else Option.none))

/-! Concrete inputs used by the witness and counterexample theorems. -/

/-- A hardcoded accent color that is neither black nor white. -/
def redColor : Color :=
  Color.rgb ⟨255, 0, 0, 1⟩

/-- A well-formed monochrome document painted pure black. -/
def svgBlackDemo : Svg :=
  ⟨true, [⟨[some blackColor]⟩]⟩

/-- A well-formed two-color document with a white background shape. -/
def svgMixDemo : Svg :=
  ⟨true, [⟨[some blackColor, some redColor]⟩, ⟨[some whiteColor]⟩]⟩

/-- A document with a color value that fails to parse. -/
def svgBadDemo : Svg :=
  ⟨true, [⟨[Option.none]⟩]⟩

/-- A document whose only shape is painted pure white. -/
def svgWhiteDemo : Svg :=
  ⟨true, [⟨[some whiteColor]⟩]⟩

/-- A small icon set: a valid icon, an icon with an unparseable color, an
icon for which no SVG instance can be obtained, and an alias. -/
def demoSet : IconSet :=
  ⟨[("good", IconEntry.icon (some svgBlackDemo)),
    ("bad", IconEntry.icon (some svgBadDemo)),
    ("ghost", IconEntry.icon Option.none),
    ("ref", IconEntry.aliasOf "good")]⟩

/-- An icon set holding one white-only icon beside a valid icon. -/
def demoWhiteSet : IconSet :=
  ⟨[("blank", IconEntry.icon (some svgWhiteDemo)),
    ("good", IconEntry.icon (some svgBlackDemo))]⟩

/-- The partitioner example of the spec: directories `A`, `A/B` and `C` each
directly contain a vector file. -/
def treePartition : DirTree :=
  DirTree.mk true [] [
    ("A", DirTree.mk true [⟨"a.svg", some svgBlackDemo⟩] [
      ("B", DirTree.mk true [⟨"b.svg", some svgBlackDemo⟩] [])]),
    ("C", DirTree.mk true [⟨"c.svg", some svgBlackDemo⟩] [])]

/-- A tree with an unreadable subdirectory beside a readable qualifying
sibling. -/
def treeUnreadable : DirTree :=
  DirTree.mk true [] [
    ("bad", DirTree.mk false [] []),
    ("good", DirTree.mk true [⟨"x.svg", some svgBlackDemo⟩] [])]

/-- A tree where the directory named `a-b` and the nested directory `a/b`
derive the same collection key. -/
def treeCollide : DirTree :=
  DirTree.mk true [] [
    ("a-b", DirTree.mk true [⟨"x.svg", some svgBlackDemo⟩] []),
    ("a", DirTree.mk true [] [
      ("b", DirTree.mk true [⟨"y.svg", some svgBlackDemo⟩] [])])]

/-- A tree with one directory whose only icon is rejected and one directory
with a valid icon. -/
def treeEmptyCollection : DirTree :=
  DirTree.mk true [] [
    ("broken", DirTree.mk true [⟨"x.svg", some svgBadDemo⟩] []),
    ("fine", DirTree.mk true [⟨"y.svg", some svgBlackDemo⟩] [])]

/-! Helper lemmas about the color callback and document processing. -/

theorem colorCallback_some_eq (c : Color) :
    colorCallback (some c) =
      (if isEmptyColor c then ColorAction.keep c
       else if c = blackColor then ColorAction.inherit
       else if c = whiteColor then ColorAction.remove
       else ColorAction.keep c) := by
  simp [colorCallback, compareColors, beq_iff_eq]

theorem colorCallback_invalid_iff (c : Option Color) :
    colorCallback c = ColorAction.invalid ↔ c = Option.none := by
  cases c with
  | none => simp [colorCallback]
  | some c' =>
    rw [colorCallback_some_eq]
    constructor
    · intro h
      by_cases h1 : isEmptyColor c' = true
      · rw [if_pos h1] at h
        exact ColorAction.noConfusion h
      · rw [if_neg h1] at h
        by_cases h2 : c' = blackColor
        · rw [if_pos h2] at h
          exact ColorAction.noConfusion h
        · rw [if_neg h2] at h
          by_cases h3 : c' = whiteColor
          · rw [if_pos h3] at h
            exact ColorAction.noConfusion h
          · rw [if_neg h3] at h
            exact ColorAction.noConfusion h
    · intro h
      exact Option.noConfusion h

theorem colorCallback_remove_iff (c : Option Color) :
    colorCallback c = ColorAction.remove ↔ c = some whiteColor := by
  cases c with
  | none => simp [colorCallback]
  | some c' =>
    rw [colorCallback_some_eq]
    constructor
    · intro h
      by_cases h1 : isEmptyColor c' = true
      · rw [if_pos h1] at h
        exact ColorAction.noConfusion h
      · rw [if_neg h1] at h
        by_cases h2 : c' = blackColor
        · rw [if_pos h2] at h
          exact ColorAction.noConfusion h
        · rw [if_neg h2] at h
          by_cases h3 : c' = whiteColor
          · rw [h3]
          · rw [if_neg h3] at h
            exact ColorAction.noConfusion h
    · intro h
      obtain rfl : c' = whiteColor := by simpa using h
      decide

theorem colorCallback_keep_eq (c' d : Color)
    (h : colorCallback (some c') = ColorAction.keep d) : d = c' := by
  rw [colorCallback_some_eq] at h
  by_cases h1 : isEmptyColor c' = true
  · rw [if_pos h1] at h
    injection h with h'
    exact h'.symm
  · rw [if_neg h1] at h
    by_cases h2 : c' = blackColor
    · rw [if_pos h2] at h
      exact ColorAction.noConfusion h
    · rw [if_neg h2] at h
      by_cases h3 : c' = whiteColor
      · rw [if_pos h3] at h
        exact ColorAction.noConfusion h
      · rw [if_neg h3] at h
        injection h with h'
        exact h'.symm

theorem rewriteColorValue_ne_none (c : Color) :
    rewriteColorValue (some c) ≠ Option.none := by
  unfold rewriteColorValue
  cases hcb : colorCallback (some c) with
  | invalid => simp
  | keep d => simp
  | inherit => simp
  | remove => simp

theorem rewriteColorValue_white (c : Option Color)
    (h : rewriteColorValue c = some whiteColor) : c = some whiteColor := by
  cases c with
  | none =>
    rw [show rewriteColorValue Option.none = Option.none from rfl] at h
    exact Option.noConfusion h
  | some c' =>
    unfold rewriteColorValue at h
    cases hcb : colorCallback (some c') with
    | invalid => rw [hcb] at h; exact h
    | remove => rw [hcb] at h; exact h
    | inherit =>
      rw [hcb] at h
      injection h with h'
      exact absurd h' (by decide)
    | keep d =>
      rw [hcb] at h
      injection h with h'
      rw [colorCallback_keep_eq c' d hcb] at h'
      rw [h']

theorem rewriteColorValue_idem (c : Option Color) :
    rewriteColorValue (rewriteColorValue c) = rewriteColorValue c := by
  cases c with
  | none => rfl
  | some c' =>
    cases hcb : colorCallback (some c') with
    | invalid =>
      exact absurd ((colorCallback_invalid_iff (some c')).mp hcb) (by simp)
    | keep d =>
      have hd := colorCallback_keep_eq c' d hcb
      subst hd
      have h1 : rewriteColorValue (some d) = some d := by
        unfold rewriteColorValue
        rw [hcb]
      rw [h1, h1]
    | inherit =>
      have h1 : rewriteColorValue (some c') = some Color.keywordCurrent := by
        unfold rewriteColorValue
        rw [hcb]
      rw [h1]
      decide
    | remove =>
      obtain rfl : c' = whiteColor := by
        simpa using (colorCallback_remove_iff (some c')).mp hcb
      decide

theorem shapeRemoved_eq_hasWhite (sh : Shape) :
    shapeRemoved sh = shapeHasWhite sh := by
  rw [Bool.eq_iff_iff]
  simp only [shapeRemoved, shapeHasWhite, List.any_eq_true, beq_iff_eq]
  exact exists_congr fun c => and_congr_right fun _ => colorCallback_remove_iff c

theorem shapeHasInvalid_iff (sh : Shape) :
    shapeHasInvalidColor sh = true ↔ Option.none ∈ sh.colors := by
  simp only [shapeHasInvalidColor, List.any_eq_true, beq_iff_eq]
  constructor
  · rintro ⟨c, hc, h⟩
    rw [(colorCallback_invalid_iff c).mp h] at hc
    exact hc
  · intro h
    exact ⟨Option.none, h, rfl⟩

theorem processSvg_error_of_unparseable (svg : Svg)
    (h : svgHasUnparseable svg = true) :
    ∃ msg, processSvg svg = Except.error msg := by
  unfold processSvg
  by_cases hwf : svg.wellFormed = false
  · exact ⟨"invalid icon", by simp [hwf]⟩
  · refine ⟨"invalid color", ?_⟩
    have hp : parseColorsModel svg = Except.error "invalid color" := by
      unfold parseColorsModel
      rw [show svg.shapes.any shapeHasInvalidColor = true from h]
      simp
    simp [hwf, hp]

theorem nodupKeys_mem_unique {α β : Type} (l : List (α × β))
    (h : (l.map Prod.fst).Nodup) {a : α} {b1 b2 : β}
    (h1 : (a, b1) ∈ l) (h2 : (a, b2) ∈ l) : b1 = b2 := by
  induction l with
  | nil => cases h1
  | cons hd tl ih =>
    simp only [List.map_cons, List.nodup_cons] at h
    rcases List.mem_cons.mp h1 with h1' | h1' <;>
      rcases List.mem_cons.mp h2 with h2' | h2'
    · rw [← h1'] at h2'
      injection h2' with _ hb
      exact hb.symm
    · exfalso
      apply h.1
      rw [← h1']
      exact List.mem_map.mpr ⟨(a, b2), h2', rfl⟩
    · exfalso
      apply h.1
      rw [← h2']
      exact List.mem_map.mpr ⟨(a, b1), h1', rfl⟩
    · exact ih h.2 h1' h2'

theorem mem_processIconSet (s : IconSet) (n : String) (e2 : IconEntry) :
    (n, e2) ∈ (processIconSet s).entries ↔
      ∃ e, (n, e) ∈ s.entries ∧ (processEntry n e).1 = some e2 := by
  simp only [processIconSet, processIconSetD, List.mem_filterMap]
  constructor
  · rintro ⟨⟨m, e⟩, hmem, hmap⟩
    rcases Option.map_eq_some'.mp hmap with ⟨e3, he3, heq⟩
    injection heq with hn he
    subst hn
    exact ⟨e, hmem, by rw [he3, he]⟩
  · rintro ⟨e, hmem, hsome⟩
    exact ⟨(n, e), hmem, by rw [hsome]; rfl⟩

theorem mem_exportIconNames (s : IconSet) (n : String) :
    n ∈ exportIconNames s ↔ ∃ osvg, (n, IconEntry.icon osvg) ∈ s.entries := by
  constructor
  · intro hn
    obtain ⟨pair, hpair, hfst⟩ := List.mem_map.mp hn
    obtain ⟨ne, hne, hmatch⟩ := List.mem_filterMap.mp hpair
    obtain ⟨nm, e⟩ := ne
    cases e with
    | icon osvg =>
      have hp : (nm, osvg) = pair := by
        injection hmatch
      cases hp
      cases hfst
      exact ⟨osvg, hne⟩
    | aliasOf t => exact Option.noConfusion hmatch
  · rintro ⟨osvg, hmem⟩
    exact List.mem_map.mpr
      ⟨(n, osvg), List.mem_filterMap.mpr ⟨(n, IconEntry.icon osvg), hmem, rfl⟩, rfl⟩

theorem list_any_false {α : Type} (p : α → Bool) (l : List α)
    (h : ∀ a ∈ l, p a = false) : l.any p = false := by
  induction l with
  | nil => rfl
  | cons hd tl ih =>
    simp only [List.any_cons, Bool.or_eq_false_iff]
    exact ⟨h hd (List.mem_cons_self hd tl), ih fun a ha => h a (List.mem_cons_of_mem hd ha)⟩

theorem list_filter_all {α : Type} (p : α → Bool) (l : List α)
    (h : ∀ a ∈ l, p a = true) : l.filter p = l := by
  induction l with
  | nil => rfl
  | cons hd tl ih =>
    rw [List.filter_cons, if_pos (h hd (List.mem_cons_self hd tl))]
    rw [ih fun a ha => h a (List.mem_cons_of_mem hd ha)]

theorem rewriteShape_idem (sh : Shape) :
    rewriteShape (rewriteShape sh) = rewriteShape sh := by
  simp only [rewriteShape, List.map_map]
  congr 1
  have hf : rewriteColorValue ∘ rewriteColorValue = rewriteColorValue :=
    funext rewriteColorValue_idem
  rw [hf]

theorem rewriteShape_no_invalid (sh : Shape) (h : shapeHasInvalidColor sh = false) :
    shapeHasInvalidColor (rewriteShape sh) = false := by
  rw [Bool.eq_false_iff]
  intro htrue
  have hmem := (shapeHasInvalid_iff _).mp htrue
  simp only [rewriteShape] at hmem
  obtain ⟨c, hcmem, hc⟩ := List.mem_map.mp hmem
  cases c with
  | none =>
    have h2 := (shapeHasInvalid_iff sh).mpr hcmem
    rw [h2] at h
    exact Bool.noConfusion h
  | some c' => exact rewriteColorValue_ne_none c' hc

theorem rewriteShape_no_white (sh : Shape) (h : shapeHasWhite sh = false) :
    shapeHasWhite (rewriteShape sh) = false := by
  rw [Bool.eq_false_iff]
  intro htrue
  simp only [shapeHasWhite, rewriteShape, List.any_eq_true, beq_iff_eq] at htrue
  obtain ⟨c, hcmem, hc⟩ := htrue
  obtain ⟨c0, hc0mem, hc0⟩ := List.mem_map.mp hcmem
  rw [hc] at hc0
  have hw := rewriteColorValue_white c0 hc0
  have h2 : shapeHasWhite sh = true := by
    simp only [shapeHasWhite, List.any_eq_true, beq_iff_eq]
    exact ⟨c0, hc0mem, hw⟩
  rw [h2] at h
  exact Bool.noConfusion h

theorem rewriteShape_not_removed (sh : Shape) (h : shapeRemoved sh = false) :
    shapeRemoved (rewriteShape sh) = false := by
  rw [shapeRemoved_eq_hasWhite] at h ⊢
  exact rewriteShape_no_white sh h

theorem processSvg_ok_iff (svg svg2 : Svg) :
    processSvg svg = Except.ok svg2 ↔
      svg.wellFormed = true ∧ parseColorsModel svg = Except.ok svg2 ∧
        svg2.shapes.isEmpty = false := by
  unfold processSvg
  by_cases hwf : svg.wellFormed = false
  · simp [hwf]
  · have hwf' : svg.wellFormed = true := by
      cases hb : svg.wellFormed
      · exact absurd hb hwf
      · rfl
    rw [if_neg hwf]
    cases hpc : parseColorsModel svg with
    | error e => simp [hwf']
    | ok svg3 =>
      rw [show (match Except.ok svg3 with
            | Except.error e => (Except.error e : Except String Svg)
            | Except.ok s4 =>
              if s4.shapes.isEmpty = true then Except.error "no geometry" else Except.ok s4)
          = (if svg3.shapes.isEmpty = true then Except.error "no geometry" else Except.ok svg3)
          from rfl]
      by_cases he : svg3.shapes.isEmpty = true
      · rw [if_pos he]
        simp only [hwf', true_and]
        constructor
        · intro hcon
          exact Except.noConfusion hcon
        · rintro ⟨h1, h2⟩
          injection h1 with h1'
          rw [h1'] at he
          rw [h2] at he
          exact Bool.noConfusion he
      · have he' : svg3.shapes.isEmpty = false := by
          cases hb : svg3.shapes.isEmpty
          · rfl
          · exact absurd hb he
        rw [if_neg he]
        constructor
        · intro h1
          injection h1 with h1'
          subst h1'
          exact ⟨hwf', rfl, he'⟩
        · rintro ⟨_, h2, _⟩
          exact h2

theorem parseColorsModel_ok_iff (svg svg2 : Svg) :
    parseColorsModel svg = Except.ok svg2 ↔
      svg.shapes.any shapeHasInvalidColor = false ∧
        svg2 = ⟨svg.wellFormed, (svg.shapes.filter (fun s => !shapeRemoved s)).map rewriteShape⟩ := by
  unfold parseColorsModel
  by_cases hinv : svg.shapes.any shapeHasInvalidColor = true
  · rw [if_pos hinv]
    simp [hinv]
  · have hinv' : svg.shapes.any shapeHasInvalidColor = false := by
      cases hb : svg.shapes.any shapeHasInvalidColor
      · rfl
      · exact absurd hb hinv
    rw [if_neg hinv]
    simp only [hinv', true_and]
    constructor
    · intro h
      injection h with h'
      exact h'.symm
    · intro h
      rw [h]

theorem list_map_id {α : Type} (f : α → α) (l : List α)
    (h : ∀ a ∈ l, f a = a) : l.map f = l := by
  induction l with
  | nil => rfl
  | cons hd tl ih =>
    rw [List.map_cons, h hd (List.mem_cons_self hd tl),
      ih fun a ha => h a (List.mem_cons_of_mem hd ha)]

theorem parseColorsModel_fixpoint (svg svg2 : Svg)
    (h : parseColorsModel svg = Except.ok svg2) :
    parseColorsModel svg2 = Except.ok svg2 := by
  obtain ⟨hinv, hsvg2⟩ := (parseColorsModel_ok_iff svg svg2).mp h
  have hmemX : ∀ sh ∈ svg2.shapes,
      shapeHasInvalidColor sh = false ∧ shapeRemoved sh = false ∧ rewriteShape sh = sh := by
    intro sh hsh
    rw [hsvg2] at hsh
    obtain ⟨s0, hs0mem, hs0⟩ := List.mem_map.mp hsh
    have hs0f := List.mem_filter.mp hs0mem
    have hs0r : shapeRemoved s0 = false := by
      have h2 := hs0f.2
      cases hb : shapeRemoved s0
      · rfl
      · rw [hb] at h2
        exact Bool.noConfusion h2
    have hs0inv : shapeHasInvalidColor s0 = false := by
      cases hb : shapeHasInvalidColor s0
      · rfl
      · exfalso
        have hany : svg.shapes.any shapeHasInvalidColor = true :=
          List.any_eq_true.mpr ⟨s0, hs0f.1, hb⟩
        rw [hany] at hinv
        exact Bool.noConfusion hinv
    refine ⟨?_, ?_, ?_⟩
    · rw [← hs0]
      exact rewriteShape_no_invalid s0 hs0inv
    · rw [← hs0]
      exact rewriteShape_not_removed s0 hs0r
    · rw [← hs0]
      exact rewriteShape_idem s0
  apply (parseColorsModel_ok_iff svg2 svg2).mpr
  constructor
  · exact list_any_false _ _ fun sh hsh => (hmemX sh hsh).1
  · have hfilter : svg2.shapes.filter (fun s => !shapeRemoved s) = svg2.shapes :=
      list_filter_all _ _ fun sh hsh => by rw [(hmemX sh hsh).2.1]; rfl
    have hmap : svg2.shapes.map rewriteShape = svg2.shapes :=
      list_map_id _ _ fun sh hsh => (hmemX sh hsh).2.2
    rw [hfilter, hmap]

theorem not_mem_export_of_error (s : IconSet) (n : String) (svg : Svg)
    (hmem : (n, IconEntry.icon (some svg)) ∈ s.entries)
    (hnd : (s.entries.map Prod.fst).Nodup)
    (msg : String) (herr : processSvg svg = Except.error msg) :
    n ∉ exportIconNames (processIconSet s) := by
  intro hn
  obtain ⟨osvg, hmem2⟩ := (mem_exportIconNames _ n).mp hn
  obtain ⟨e, hmem3, hsome⟩ := (mem_processIconSet s n _).mp hmem2
  have he : e = IconEntry.icon (some svg) := nodupKeys_mem_unique s.entries hnd hmem3 hmem
  subst he
  rw [show processEntry n (IconEntry.icon (some svg)) = (Option.none, some (n, msg)) from by
    simp [processEntry, herr]] at hsome
  exact Option.noConfusion hsome

/-- C1: for every color value encountered by the `processIconSet` callback,
a value exactly equal to pure black is replaced by the `currentColor`
placeholder, a value representing no color (`none` or `transparent`) passes
through unchanged, and any other parseable non-black, non-white value passes
through unchanged. -/
theorem claim1_color_values (c : Color) :
    (compareColors c blackColor = true → colorCallback (some c) = ColorAction.inherit) ∧
    (isEmptyColor c = true → colorCallback (some c) = ColorAction.keep c) ∧
    (isEmptyColor c = false → compareColors c blackColor = false →
      compareColors c whiteColor = false →
      colorCallback (some c) = ColorAction.keep c) := by
  refine ⟨?_, ?_, ?_⟩
  · intro h
    obtain rfl : c = blackColor := by simpa [compareColors] using h
    decide
  · intro h
    simp [colorCallback, h]
  · intro h1 h2 h3
    simp [colorCallback, h1, h2, h3]

/-- Witness for C1 at pure black, at the keyword `none`, and at a red
accent. -/
theorem claim1_witness :
    colorCallback (some blackColor) = ColorAction.inherit ∧
    colorCallback (some Color.keywordNone) = ColorAction.keep Color.keywordNone ∧
    colorCallback (some redColor) = ColorAction.keep redColor :=
  ⟨(claim1_color_values blackColor).1 (by decide),
   (claim1_color_values Color.keywordNone).2.1 (by decide),
   (claim1_color_values redColor).2.2 (by decide) (by decide) (by decide)⟩

/-- C5: an icon whose document contains a color value that fails to parse is
rejected and removed from the icon set, so its name is absent from the
export, a diagnostic naming the icon is logged, and every other icon that
processes successfully still reaches the processed set. -/
theorem claim5_unparseable_rejected (s : IconSet) (n : String) (svg : Svg)
    (hmem : (n, IconEntry.icon (some svg)) ∈ s.entries)
    (hbad : svgHasUnparseable svg = true)
    (hnd : (s.entries.map Prod.fst).Nodup) :
    n ∉ exportIconNames (processIconSet s) ∧
    (∃ msg, (n, msg) ∈ (processIconSetD s).2) ∧
    (∀ m svg1 svg2, (m, IconEntry.icon (some svg1)) ∈ s.entries →
      processSvg svg1 = Except.ok svg2 →
      (m, IconEntry.icon (some svg2)) ∈ (processIconSet s).entries) := by
  obtain ⟨msg, hmsg⟩ := processSvg_error_of_unparseable svg hbad
  refine ⟨not_mem_export_of_error s n svg hmem hnd msg hmsg, ⟨msg, ?_⟩, ?_⟩
  · apply List.mem_filterMap.mpr
    exact ⟨(n, IconEntry.icon (some svg)), hmem, by simp [processEntry, hmsg]⟩
  · intro m svg1 svg2 hm hok
    apply (mem_processIconSet s m _).mpr
    exact ⟨IconEntry.icon (some svg1), hm, by simp [processEntry, hok]⟩

/-- Witness for C5 on a small icon set with an unparseable icon beside a
valid one. -/
theorem claim5_witness :
    "bad" ∉ exportIconNames (processIconSet demoSet) ∧
    (∃ msg, ("bad", msg) ∈ (processIconSetD demoSet).2) ∧
    (∀ m svg1 svg2, (m, IconEntry.icon (some svg1)) ∈ demoSet.entries →
      processSvg svg1 = Except.ok svg2 →
      (m, IconEntry.icon (some svg2)) ∈ (processIconSet demoSet).entries) :=
  claim5_unparseable_rejected demoSet "bad" svgBadDemo (by decide) (by decide) (by decide)

/-- C7: shapes painted exactly pure white are deleted, so the processed
document contains no white shape; and when their deletion leaves no
geometry, the icon fails validation and its name is absent from the exported
icons mapping. -/
theorem claim7_white_removed (s : IconSet) (n : String) (svg : Svg)
    (hmem : (n, IconEntry.icon (some svg)) ∈ s.entries)
    (hnd : (s.entries.map Prod.fst).Nodup)
    (hwf : svg.wellFormed = true)
    (hok : svgHasUnparseable svg = false) :
    (∀ svg2, processSvg svg = Except.ok svg2 →
      svg2.shapes = (svg.shapes.filter (fun sh => !shapeHasWhite sh)).map rewriteShape ∧
      ∀ sh ∈ svg2.shapes, shapeHasWhite sh = false) ∧
    (svg.shapes.filter (fun sh => !shapeHasWhite sh) = [] →
      processSvg svg = Except.error "no geometry" ∧
      n ∉ exportIconNames (processIconSet s)) := by
  have hfun : (fun sh => !shapeRemoved sh) = (fun sh => !shapeHasWhite sh) :=
    funext fun sh => by rw [shapeRemoved_eq_hasWhite]
  have hpc : parseColorsModel svg =
      Except.ok ⟨svg.wellFormed, (svg.shapes.filter (fun sh => !shapeHasWhite sh)).map rewriteShape⟩ := by
    apply (parseColorsModel_ok_iff _ _).mpr
    refine ⟨hok, ?_⟩
    rw [hfun]
  constructor
  · intro svg2 hps
    obtain ⟨_, hpc2, _⟩ := (processSvg_ok_iff svg svg2).mp hps
    rw [hpc] at hpc2
    injection hpc2 with h'
    subst h'
    constructor
    · rfl
    · intro sh hsh
      obtain ⟨s0, hs0mem, hs0⟩ := List.mem_map.mp hsh
      have hs0f := List.mem_filter.mp hs0mem
      have hs0w : shapeHasWhite s0 = false := by
        have h2 := hs0f.2
        cases hb : shapeHasWhite s0
        · rfl
        · rw [hb] at h2
          exact Bool.noConfusion h2
      rw [← hs0]
      exact rewriteShape_no_white s0 hs0w
  · intro hfe
    have hpc0 : parseColorsModel svg = Except.ok ⟨svg.wellFormed, []⟩ := by
      rw [hpc, hfe]
      rfl
    have herr : processSvg svg = Except.error "no geometry" := by
      unfold processSvg
      rw [if_neg (by rw [hwf]; exact fun hcon => Bool.noConfusion hcon), hpc0]
      rfl
    exact ⟨herr, not_mem_export_of_error s n svg hmem hnd _ herr⟩

/-- Witness for C7 on an icon set holding a white-only icon. -/
theorem claim7_witness :
    (∀ svg2, processSvg svgWhiteDemo = Except.ok svg2 →
      svg2.shapes = (svgWhiteDemo.shapes.filter (fun sh => !shapeHasWhite sh)).map rewriteShape ∧
      ∀ sh ∈ svg2.shapes, shapeHasWhite sh = false) ∧
    (svgWhiteDemo.shapes.filter (fun sh => !shapeHasWhite sh) = [] →
      processSvg svgWhiteDemo = Except.error "no geometry" ∧
      "blank" ∉ exportIconNames (processIconSet demoWhiteSet)) :=
  claim7_white_removed demoWhiteSet "blank" svgWhiteDemo
    (by decide) (by decide) (by decide) (by decide)

/-- C8: color canonicalization is idempotent on its own output: every icon
document found in the processed icon set is a fixed point of the color
canonicalization stage. -/
theorem claim8_idempotent (s : IconSet) (n : String) (svg2 : Svg)
    (h : (n, IconEntry.icon (some svg2)) ∈ (processIconSet s).entries) :
    parseColorsModel svg2 = Except.ok svg2 := by
  obtain ⟨e, hmem, hsome⟩ := (mem_processIconSet s n _).mp h
  cases e with
  | aliasOf t => simp [processEntry] at hsome
  | icon osvg =>
    cases osvg with
    | none => simp [processEntry] at hsome
    | some svg1 =>
      cases hps : processSvg svg1 with
      | error msg => simp [processEntry, hps] at hsome
      | ok svg2w =>
        simp only [processEntry, hps, Option.some.injEq, IconEntry.icon.injEq] at hsome
        obtain ⟨_, hpcq, _⟩ := (processSvg_ok_iff svg1 svg2w).mp hps
        have hfix := parseColorsModel_fixpoint svg1 svg2w hpcq
        rw [hsome] at hfix
        exact hfix

/-- Witness for C8 at the processed form of a black icon. -/
theorem claim8_witness :
    parseColorsModel ⟨true, [⟨[some Color.keywordCurrent]⟩]⟩ =
      Except.ok ⟨true, [⟨[some Color.keywordCurrent]⟩]⟩ :=
  claim8_idempotent demoSet "good" ⟨true, [⟨[some Color.keywordCurrent]⟩]⟩ (by decide)

/-- C9: an icon for which no SVG instance can be obtained is silently
skipped: its entry stays in the set unchanged, its name reaches the export,
and no diagnostic names it. -/
theorem claim9_no_svg_skipped (s : IconSet) (n : String)
    (hmem : (n, IconEntry.icon Option.none) ∈ s.entries)
    (hnd : (s.entries.map Prod.fst).Nodup) :
    (n, IconEntry.icon Option.none) ∈ (processIconSet s).entries ∧
    n ∈ exportIconNames (processIconSet s) ∧
    ∀ w ∈ (processIconSetD s).2, w.1 ≠ n := by
  have h1 : (n, IconEntry.icon Option.none) ∈ (processIconSet s).entries :=
    (mem_processIconSet s n _).mpr ⟨IconEntry.icon Option.none, hmem, rfl⟩
  refine ⟨h1, (mem_exportIconNames _ n).mpr ⟨Option.none, h1⟩, ?_⟩
  intro w hw heq
  simp only [processIconSetD] at hw
  obtain ⟨⟨m, e⟩, hme, hwsome⟩ := List.mem_filterMap.mp hw
  cases e with
  | aliasOf t => exact Option.noConfusion hwsome
  | icon osvg =>
    cases osvg with
    | none => exact Option.noConfusion hwsome
    | some svg1 =>
      cases hps : processSvg svg1 with
      | ok svg2w =>
        rw [show (processEntry m (IconEntry.icon (some svg1))).2 = Option.none from by
          simp [processEntry, hps]] at hwsome
        exact Option.noConfusion hwsome
      | error msg =>
        have hw2 : (m, msg) = w := by
          apply Option.some.inj
          rw [← hwsome]
          simp [processEntry, hps]
        have hm : m = n := by
          rw [← hw2] at heq
          exact heq
        subst hm
        have hsame := nodupKeys_mem_unique s.entries hnd hme hmem
        injection hsame with h'
        exact Option.noConfusion h'

/-- Witness for C9 at the icon without an SVG instance in the demo set. -/
theorem claim9_witness :
    ("ghost", IconEntry.icon Option.none) ∈ (processIconSet demoSet).entries ∧
    "ghost" ∈ exportIconNames (processIconSet demoSet) ∧
    ∀ w ∈ (processIconSetD demoSet).2, w.1 ≠ "ghost" :=
  claim9_no_svg_skipped demoSet "ghost" (by decide) (by decide)

/-! Traversal characterization lemmas. -/

mutual

theorem traverseDir_eq (p : List String) (t : DirTree) (h : allReadable t = true) :
    traverseDir p t =
      Except.ok ((nodesWithPaths p t).filter (fun pf => qualifies pf.2)) := by
  cases t with
  | mk readable files subdirs =>
    simp only [allReadable, Bool.and_eq_true] at h
    unfold traverseDir
    rw [if_neg (by rw [h.1]; exact fun hcon => Bool.noConfusion hcon)]
    rw [traverseDirList_eq p subdirs h.2]
    unfold nodesWithPaths
    rw [List.filter_cons]
    by_cases hq : qualifies files = true
    · rw [if_pos hq, if_pos hq]
      rfl
    · have hq' : qualifies files = false := by
        cases hb : qualifies files
        · rfl
        · exact absurd hb hq
      rw [if_neg (by rw [hq']; exact fun hcon => Bool.noConfusion hcon)]
      rw [if_neg (by simp [hq'])]
      rfl

theorem traverseDirList_eq (p : List String) (l : List (String × DirTree))
    (h : allReadableList l = true) :
    traverseDirList p l =
      Except.ok ((nodesWithPathsList p l).filter (fun pf => qualifies pf.2)) := by
  cases l with
  | nil => rfl
  | cons nt rest =>
    obtain ⟨n, t⟩ := nt
    simp only [allReadableList, Bool.and_eq_true] at h
    unfold traverseDirList
    rw [traverseDir_eq (p ++ [n]) t h.1, traverseDirList_eq p rest h.2]
    rw [show nodesWithPathsList p ((n, t) :: rest)
        = nodesWithPaths (p ++ [n]) t ++ nodesWithPathsList p rest from rfl]
    rw [List.filter_append]

end

mutual

theorem traverseDir_ok_readable (p : List String) (t : DirTree)
    (l : List (List String × List SvgFile)) (h : traverseDir p t = Except.ok l) :
    allReadable t = true := by
  cases t with
  | mk readable files subdirs =>
    unfold traverseDir at h
    by_cases hr : readable = false
    · rw [if_pos hr] at h
      exact Except.noConfusion h
    · have hr' : readable = true := by
        cases hb : readable
        · exact absurd hb hr
        · rfl
      rw [if_neg hr] at h
      cases hm : traverseDirList p subdirs with
      | error e =>
        rw [hm] at h
        exact Except.noConfusion h
      | ok r =>
        simp only [allReadable, Bool.and_eq_true]
        exact ⟨hr', traverseDirList_ok_readable p subdirs r hm⟩

theorem traverseDirList_ok_readable (p : List String) (l : List (String × DirTree))
    (r : List (List String × List SvgFile)) (h : traverseDirList p l = Except.ok r) :
    allReadableList l = true := by
  cases l with
  | nil => rfl
  | cons nt rest =>
    obtain ⟨n, t⟩ := nt
    unfold traverseDirList at h
    cases h1 : traverseDir (p ++ [n]) t with
    | error e =>
      rw [h1] at h
      exact Except.noConfusion h
    | ok r1 =>
      rw [h1] at h
      cases h2 : traverseDirList p rest with
      | error e =>
        rw [h2] at h
        exact Except.noConfusion h
      | ok r2 =>
        simp only [allReadableList, Bool.and_eq_true]
        exact ⟨traverseDir_ok_readable (p ++ [n]) t r1 h1,
               traverseDirList_ok_readable p rest r2 h2⟩

end

mutual

theorem traverseDir_error_of_unreadable (p : List String) (t : DirTree)
    (h : hasUnreadable t = true) : traverseDir p t = Except.error () := by
  cases t with
  | mk readable files subdirs =>
    simp only [hasUnreadable, Bool.or_eq_true, Bool.not_eq_true'] at h
    unfold traverseDir
    rcases h with h | h
    · rw [if_pos h]
    · by_cases hr : readable = false
      · rw [if_pos hr]
      · rw [if_neg hr, traverseDirList_error_of_unreadable p subdirs h]

theorem traverseDirList_error_of_unreadable (p : List String)
    (l : List (String × DirTree)) (h : hasUnreadableList l = true) :
    traverseDirList p l = Except.error () := by
  cases l with
  | nil => exact absurd h (by simp [hasUnreadableList])
  | cons nt rest =>
    obtain ⟨n, t⟩ := nt
    simp only [hasUnreadableList, Bool.or_eq_true] at h
    unfold traverseDirList
    rcases h with h | h
    · rw [traverseDir_error_of_unreadable (p ++ [n]) t h]
    · cases htd : traverseDir (p ++ [n]) t with
      | error e =>
        cases e
        rfl
      | ok r1 =>
        rw [traverseDirList_error_of_unreadable p rest h]

end

/-! Path facts about `nodesWithPaths`. -/

theorem uniqueNamesList_mem (l : List (String × DirTree))
    (h : uniqueNamesList l = true) : ∀ nt ∈ l, uniqueNames nt.2 = true := by
  induction l with
  | nil => intro nt hnt; cases hnt
  | cons hd tl ih =>
    simp only [uniqueNamesList, Bool.and_eq_true] at h
    intro nt hnt
    rcases List.mem_cons.mp hnt with h1 | h1
    · rw [h1]
      exact h.1
    · exact ih h.2 nt h1

theorem namesCleanList_mem (l : List (String × DirTree))
    (h : namesCleanList l = true) : ∀ nt ∈ l, namesClean nt.2 = true := by
  induction l with
  | nil => intro nt hnt; cases hnt
  | cons hd tl ih =>
    simp only [namesCleanList, Bool.and_eq_true] at h
    intro nt hnt
    rcases List.mem_cons.mp hnt with h1 | h1
    · rw [h1]
      exact h.1
    · exact ih h.2 nt h1

mutual

theorem nodes_paths_shape (p : List String) (t : DirTree) :
    ∀ q ∈ (nodesWithPaths p t).map Prod.fst,
      q = p ∨ ∃ r, r ≠ ([] : List String) ∧ q = p ++ r := by
  cases t with
  | mk readable files subdirs =>
    intro q hq
    rw [show nodesWithPaths p (DirTree.mk readable files subdirs)
        = (p, files) :: nodesWithPathsList p subdirs from rfl, List.map_cons] at hq
    rcases List.mem_cons.mp hq with h1 | h1
    · exact Or.inl h1
    · obtain ⟨n, rest, _, hqeq⟩ := nodesList_paths_shape p subdirs q h1
      exact Or.inr ⟨n :: rest, List.cons_ne_nil n rest, hqeq⟩

theorem nodesList_paths_shape (p : List String) (l : List (String × DirTree)) :
    ∀ q ∈ (nodesWithPathsList p l).map Prod.fst,
      ∃ n rest, n ∈ l.map Prod.fst ∧ q = p ++ n :: rest := by
  cases l with
  | nil => intro q hq; cases hq
  | cons nt restl =>
    obtain ⟨n, t⟩ := nt
    intro q hq
    rw [show nodesWithPathsList p ((n, t) :: restl)
        = nodesWithPaths (p ++ [n]) t ++ nodesWithPathsList p restl from rfl,
      List.map_append] at hq
    rcases List.mem_append.mp hq with h1 | h1
    · rcases nodes_paths_shape (p ++ [n]) t q h1 with h2 | h2
      · refine ⟨n, [], List.mem_cons_self _ _, ?_⟩
        rw [h2]
      · obtain ⟨r, _, hqeq⟩ := h2
        refine ⟨n, r, List.mem_cons_self _ _, ?_⟩
        rw [hqeq, List.append_assoc]
        rfl
    · obtain ⟨n2, rest2, hn2, hqeq⟩ := nodesList_paths_shape p restl q h1
      exact ⟨n2, rest2, List.mem_cons_of_mem _ hn2, hqeq⟩

end

mutual

theorem nodes_paths_nodup (p : List String) (t : DirTree)
    (h : uniqueNames t = true) : ((nodesWithPaths p t).map Prod.fst).Nodup := by
  cases t with
  | mk readable files subdirs =>
    simp only [uniqueNames, Bool.and_eq_true] at h
    have hnames : (subdirs.map Prod.fst).Nodup := of_decide_eq_true h.1
    rw [show nodesWithPaths p (DirTree.mk readable files subdirs)
        = (p, files) :: nodesWithPathsList p subdirs from rfl, List.map_cons]
    apply List.nodup_cons.mpr
    constructor
    · intro hp
      obtain ⟨n, rest, _, hqeq⟩ := nodesList_paths_shape p subdirs p hp
      have hlen := congrArg List.length hqeq
      rw [List.length_append, List.length_cons] at hlen
      omega
    · exact nodesList_paths_nodup p subdirs hnames h.2

theorem nodesList_paths_nodup (p : List String) (l : List (String × DirTree))
    (hnames : (l.map Prod.fst).Nodup) (h : uniqueNamesList l = true) :
    ((nodesWithPathsList p l).map Prod.fst).Nodup := by
  cases l with
  | nil => exact List.nodup_nil
  | cons nt restl =>
    obtain ⟨n, t⟩ := nt
    simp only [uniqueNamesList, Bool.and_eq_true] at h
    rw [show nodesWithPathsList p ((n, t) :: restl)
        = nodesWithPaths (p ++ [n]) t ++ nodesWithPathsList p restl from rfl,
      List.map_append]
    simp only [List.map_cons, List.nodup_cons] at hnames
    apply List.Nodup.append
    · exact nodes_paths_nodup (p ++ [n]) t h.1
    · exact nodesList_paths_nodup p restl hnames.2 h.2
    · intro q hq1 hq2
      obtain ⟨n2, rest2, hn2, hq2eq⟩ := nodesList_paths_shape p restl q hq2
      rcases nodes_paths_shape (p ++ [n]) t q hq1 with h3 | h3
      · rw [h3] at hq2eq
        have h4 := List.append_cancel_left hq2eq
        injection h4 with h5 _
        rw [← h5] at hn2
        exact hnames.1 hn2
      · obtain ⟨r, _, hq1eq⟩ := h3
        rw [hq1eq, List.append_assoc] at hq2eq
        have h4 := List.append_cancel_left hq2eq
        rw [List.singleton_append] at h4
        injection h4 with h5 _
        rw [← h5] at hn2
        exact hnames.1 hn2

end

mutual

theorem nodes_paths_good (p : List String) (t : DirTree) (hc : namesClean t = true)
    (hp : ∀ s ∈ p, goodName s = true) :
    ∀ q ∈ (nodesWithPaths p t).map Prod.fst, ∀ s ∈ q, goodName s = true := by
  cases t with
  | mk readable files subdirs =>
    simp only [namesClean, Bool.and_eq_true] at hc
    intro q hq
    rw [show nodesWithPaths p (DirTree.mk readable files subdirs)
        = (p, files) :: nodesWithPathsList p subdirs from rfl, List.map_cons] at hq
    rcases List.mem_cons.mp hq with h1 | h1
    · rw [h1]
      exact hp
    · exact nodesList_paths_good p subdirs
        (fun nt hnt => (List.all_eq_true.mp hc.1) nt hnt) hc.2 hp q h1

theorem nodesList_paths_good (p : List String) (l : List (String × DirTree))
    (hnames : ∀ nt ∈ l, goodName nt.1 = true) (hc : namesCleanList l = true)
    (hp : ∀ s ∈ p, goodName s = true) :
    ∀ q ∈ (nodesWithPathsList p l).map Prod.fst, ∀ s ∈ q, goodName s = true := by
  cases l with
  | nil => intro q hq; cases hq
  | cons nt restl =>
    obtain ⟨n, t⟩ := nt
    simp only [namesCleanList, Bool.and_eq_true] at hc
    intro q hq
    rw [show nodesWithPathsList p ((n, t) :: restl)
        = nodesWithPaths (p ++ [n]) t ++ nodesWithPathsList p restl from rfl,
      List.map_append] at hq
    have hpn : ∀ s ∈ p ++ [n], goodName s = true := by
      intro s hs
      rcases List.mem_append.mp hs with h1 | h1
      · exact hp s h1
      · rw [List.mem_singleton.mp h1]
        exact hnames (n, t) (List.mem_cons_self _ _)
    rcases List.mem_append.mp hq with h1 | h1
    · exact nodes_paths_good (p ++ [n]) t hc.1 hpn q h1
    · exact nodesList_paths_good p restl
        (fun nt hnt => hnames nt (List.mem_cons_of_mem _ hnt)) hc.2 hp q h1

end

/-! Injectivity of the separator join on clean names. -/

theorem sep_split (a : List Char) : ∀ (c : List Char) (u v : List Char),
    '-' ∉ a → '-' ∉ c → a ++ '-' :: u = c ++ '-' :: v → a = c ∧ u = v := by
  induction a with
  | nil =>
    intro c u v _ hc h
    cases c with
    | nil =>
      rw [List.nil_append, List.nil_append] at h
      injection h with _ h2
      exact ⟨rfl, h2⟩
    | cons ch c2 =>
      rw [List.nil_append, List.cons_append] at h
      injection h with h1 _
      exact absurd (h1 ▸ List.mem_cons_self ch c2) hc
  | cons ah a2 ih =>
    intro c u v ha hc h
    cases c with
    | nil =>
      rw [List.nil_append, List.cons_append] at h
      injection h with h1 _
      exact absurd (h1.symm ▸ List.mem_cons_self ah a2) ha
    | cons ch c2 =>
      rw [List.cons_append, List.cons_append] at h
      injection h with h1 h2
      have ha2 : '-' ∉ a2 := fun hm => ha (List.mem_cons_of_mem ah hm)
      have hc2 : '-' ∉ c2 := fun hm => hc (List.mem_cons_of_mem ch hm)
      obtain ⟨hac, huv⟩ := ih c2 u v ha2 hc2 h2
      exact ⟨by rw [h1, hac], huv⟩

theorem charJoin_inj : ∀ (xs ys : List (List Char)),
    (∀ s ∈ xs, '-' ∉ s ∧ s ≠ []) → (∀ s ∈ ys, '-' ∉ s ∧ s ≠ []) →
    charJoin xs = charJoin ys → xs = ys := by
  intro xs
  induction xs with
  | nil =>
    intro ys _ hys h
    cases ys with
    | nil => rfl
    | cons b ys2 =>
      cases ys2 with
      | nil =>
        rw [show charJoin [] = [] from rfl, show charJoin [b] = b from rfl] at h
        exact absurd h.symm (hys b (List.mem_cons_self b [])).2
      | cons b2 ys3 =>
        rw [show charJoin [] = [] from rfl,
          show charJoin (b :: b2 :: ys3) = b ++ '-' :: charJoin (b2 :: ys3) from rfl] at h
        have hlen := congrArg List.length h
        rw [List.length_nil, List.length_append, List.length_cons] at hlen
        omega
  | cons a xs2 ih =>
    intro ys hxs hys h
    cases ys with
    | nil =>
      cases xs2 with
      | nil =>
        rw [show charJoin [] = [] from rfl, show charJoin [a] = a from rfl] at h
        exact absurd h (hxs a (List.mem_cons_self a [])).2
      | cons a2 xs3 =>
        rw [show charJoin [] = [] from rfl,
          show charJoin (a :: a2 :: xs3) = a ++ '-' :: charJoin (a2 :: xs3) from rfl] at h
        have hlen := congrArg List.length h
        rw [List.length_append, List.length_cons, List.length_nil] at hlen
        omega
    | cons b ys2 =>
      cases xs2 with
      | nil =>
        cases ys2 with
        | nil =>
          rw [show charJoin [a] = a from rfl, show charJoin [b] = b from rfl] at h
          rw [h]
        | cons b2 ys3 =>
          rw [show charJoin [a] = a from rfl,
            show charJoin (b :: b2 :: ys3) = b ++ '-' :: charJoin (b2 :: ys3) from rfl] at h
          have hmem : '-' ∈ a := by
            rw [h]
            exact List.mem_append.mpr (Or.inr (List.mem_cons_self _ _))
          exact absurd hmem (hxs a (List.mem_cons_self a [])).1
      | cons a2 xs3 =>
        cases ys2 with
        | nil =>
          rw [show charJoin [b] = b from rfl,
            show charJoin (a :: a2 :: xs3) = a ++ '-' :: charJoin (a2 :: xs3) from rfl] at h
          have hmem : '-' ∈ b := by
            rw [← h]
            exact List.mem_append.mpr (Or.inr (List.mem_cons_self _ _))
          exact absurd hmem (hys b (List.mem_cons_self b [])).1
        | cons b2 ys3 =>
          rw [show charJoin (a :: a2 :: xs3) = a ++ '-' :: charJoin (a2 :: xs3) from rfl,
            show charJoin (b :: b2 :: ys3) = b ++ '-' :: charJoin (b2 :: ys3) from rfl] at h
          obtain ⟨hab, huv⟩ := sep_split a b _ _
            (hxs a (List.mem_cons_self _ _)).1 (hys b (List.mem_cons_self _ _)).1 h
          have hrec := ih (b2 :: ys3)
            (fun s hs => hxs s (List.mem_cons_of_mem _ hs))
            (fun s hs => hys s (List.mem_cons_of_mem _ hs)) huv
          rw [hab, hrec]

theorem strData_inj : Function.Injective String.data := by
  intro a b h
  cases a with
  | mk da =>
    cases b with
    | mk db =>
      rw [show (String.mk da).data = da from rfl, show (String.mk db).data = db from rfl] at h
      rw [h]

theorem str_data_append (a b : String) : (a ++ b).data = a.data ++ b.data := by
  cases a with
  | mk da =>
    cases b with
    | mk db => rfl

theorem goodName_data (s : String) (h : goodName s = true) :
    '-' ∉ s.data ∧ s.data ≠ [] := by
  simp only [goodName, Bool.and_eq_true, decide_eq_true_eq] at h
  exact ⟨h.2, h.1⟩

theorem joinSegs_inj (a b : List String)
    (ha : ∀ s ∈ a, goodName s = true) (hb : ∀ s ∈ b, goodName s = true)
    (h : joinSegs a = joinSegs b) : a = b := by
  unfold joinSegs at h
  have hd : charJoin (a.map String.data) = charJoin (b.map String.data) := by
    injection h
  have hmaps := charJoin_inj (a.map String.data) (b.map String.data)
    (by
      intro s hs
      obtain ⟨s0, hs0, hs0eq⟩ := List.mem_map.mp hs
      rw [← hs0eq]
      exact goodName_data s0 (ha s0 hs0))
    (by
      intro s hs
      obtain ⟨s0, hs0, hs0eq⟩ := List.mem_map.mp hs
      rw [← hs0eq]
      exact goodName_data s0 (hb s0 hs0))
    hd
  exact (List.map_injective_iff.mpr strData_inj) hmaps

theorem collectionKey_inj (ns : Option String) (x y : String)
    (h : collectionKey ns x = collectionKey ns y) : x = y := by
  cases ns with
  | none => exact h
  | some s =>
    by_cases hs : s = ""
    · simpa [collectionKey, hs] using h
    · simp only [collectionKey, if_neg hs] at h
      have hd := congrArg String.data h
      rw [str_data_append, str_data_append, str_data_append, str_data_append] at hd
      rw [List.append_assoc, List.append_assoc] at hd
      have := List.append_cancel_left hd
      have h2 := List.append_cancel_left this
      exact strData_inj h2

theorem list_filterMap_congr {α β : Type} (f g : α → Option β) (l : List α)
    (h : ∀ a ∈ l, f a = g a) : l.filterMap f = l.filterMap g := by
  induction l with
  | nil => rfl
  | cons hd tl ih =>
    rw [List.filterMap_cons, List.filterMap_cons, h hd (List.mem_cons_self hd tl),
      ih fun a ha => h a (List.mem_cons_of_mem hd ha)]

theorem filterMap_keys_sublist {α β γ : Type} (l : List α) (g : α → Option (β × γ))
    (k : α → β) (hg : ∀ a p, g a = some p → p.1 = k a) :
    ((l.filterMap g).map Prod.fst).Sublist (l.map k) := by
  induction l with
  | nil => exact List.Sublist.refl []
  | cons hd tl ih =>
    rw [List.filterMap_cons, List.map_cons]
    cases hga : g hd with
    | none => exact List.Sublist.cons (k hd) ih
    | some p =>
      rw [List.map_cons, hg hd p hga]
      exact List.Sublist.cons₂ (k hd) ih

theorem exportIconNames_processed_subset (files : List SvgFile) (nm : String)
    (h : nm ∈ exportIconNames (processIconSet (buildCollection files))) :
    nm ∈ files.filterMap (fun f =>
      if hasSvgExt f.name then some (dropSvgExt f.name) else Option.none) := by
  obtain ⟨osvg, hmem⟩ := (mem_exportIconNames _ nm).mp h
  obtain ⟨e, hmem2, _⟩ := (mem_processIconSet _ nm _).mp hmem
  simp only [buildCollection] at hmem2
  obtain ⟨f, hf, hfsome⟩ := List.mem_filterMap.mp hmem2
  by_cases hext : hasSvgExt f.name = true
  · rw [if_pos hext] at hfsome
    obtain ⟨svg, _, heq⟩ := Option.map_eq_some'.mp hfsome
    injection heq with h1 _
    apply List.mem_filterMap.mpr
    refine ⟨f, hf, ?_⟩
    rw [if_pos hext, h1]
  · rw [if_neg hext] at hfsome
    exact Option.noConfusion hfsome

/-- C2: a directory qualifies exactly when it directly contains a vector
file, every qualifying directory becomes its own collection in traversal
order regardless of nesting, and each collection's exported icon names come
only from that directory's own files. -/
theorem claim2_partitioner (t : DirTree) (hr : allReadable t = true) :
    findSvgDirectories t =
      Except.ok ((nodesWithPaths [] t).filter (fun pf => qualifies pf.2)) ∧
    (∀ ns, importSvgCollections ns t =
      Except.ok (((nodesWithPaths [] t).filter (fun pf => qualifies pf.2)).filterMap
        (fun pf =>
          let exported := exportIcons (processIconSet (buildCollection pf.2))
          if exported.length > 0 then some (collectionKey ns (joinSegs pf.1), exported)
          else Option.none))) ∧
    (∀ pf ∈ nodesWithPaths [] t, ∀ nm,
      nm ∈ exportIconNames (processIconSet (buildCollection pf.2)) →
      nm ∈ pf.2.filterMap (fun f =>
        if hasSvgExt f.name then some (dropSvgExt f.name) else Option.none)) := by
  have h1 : findSvgDirectories t =
      Except.ok ((nodesWithPaths [] t).filter (fun pf => qualifies pf.2)) :=
    traverseDir_eq [] t hr
  refine ⟨h1, ?_, ?_⟩
  · intro ns
    unfold importSvgCollections
    rw [h1]
  · intro pf _ nm hnm
    exact exportIconNames_processed_subset pf.2 nm hnm

/-- Witness for C2 on the spec's partitioner example, directories `A`,
`A/B` and `C`. -/
theorem claim2_witness :
    (findSvgDirectories treePartition =
      Except.ok ((nodesWithPaths [] treePartition).filter (fun pf => qualifies pf.2)) ∧
    (∀ ns, importSvgCollections ns treePartition =
      Except.ok (((nodesWithPaths [] treePartition).filter (fun pf => qualifies pf.2)).filterMap
        (fun pf =>
          let exported := exportIcons (processIconSet (buildCollection pf.2))
          if exported.length > 0 then some (collectionKey ns (joinSegs pf.1), exported)
          else Option.none))) ∧
    (∀ pf ∈ nodesWithPaths [] treePartition, ∀ nm,
      nm ∈ exportIconNames (processIconSet (buildCollection pf.2)) →
      nm ∈ pf.2.filterMap (fun f =>
        if hasSvgExt f.name then some (dropSvgExt f.name) else Option.none))) :=
  claim2_partitioner treePartition (by decide)

/-- C3 counterexample: with an unreadable subdirectory beside a readable
qualifying sibling, the whole multi-collection import errors out instead of
returning the sibling's collection. -/
theorem claim3_counterexample :
    importSvgCollections Option.none treeUnreadable = Except.error () ∧
    (["good"], [SvgFile.mk "x.svg" (some svgBlackDemo)]) ∈ nodesWithPaths [] treeUnreadable ∧
    qualifies [SvgFile.mk "x.svg" (some svgBlackDemo)] = true := by
  refine ⟨by decide, by decide, by decide⟩

/-- C3 (amended): an unreadable directory anywhere in the tree aborts the
entire multi-collection import: the traversal exception escalates to the
caller and no collections at all are returned, sibling branches included. -/
theorem claim3_amended (t : DirTree) (ns : Option String)
    (h : hasUnreadable t = true) :
    importSvgCollections ns t = Except.error () := by
  unfold importSvgCollections findSvgDirectories
  rw [traverseDir_error_of_unreadable [] t h]

/-- Witness for the amended C3 on the concrete unreadable tree. -/
theorem claim3_witness :
    importSvgCollections (some "ic") treeUnreadable = Except.error () :=
  claim3_amended treeUnreadable (some "ic") (by decide)

/-- C4 counterexample: the directory named `a-b` and the nested path `a/b`
derive the same key `a-b`, so the keys are not pairwise distinct and the
later collection overwrites the earlier one in the JS object. -/
theorem claim4_counterexample :
    importSvgCollections Option.none treeCollide =
      Except.ok
        [("a-b", [("x", some (⟨true, [⟨[some Color.keywordCurrent]⟩]⟩ : Svg))]),
         ("a-b", [("y", some (⟨true, [⟨[some Color.keywordCurrent]⟩]⟩ : Svg))])] ∧
    ¬ (["a-b", "a-b"] : List String).Nodup := by
  refine ⟨by decide, by decide⟩

/-- C4 (amended): when sibling directory names are distinct and no directory
name is empty or contains the separator character, the derived collection
keys are pairwise distinct, so no collection overwrites another; in general
a directory whose name contains the separator can collide with a nested
path. -/
theorem claim4_amended (t : DirTree) (ns : Option String)
    (hU : uniqueNames t = true) (hN : namesClean t = true)
    (res : List (String × List (String × Option Svg)))
    (h : importSvgCollections ns t = Except.ok res) :
    (res.map Prod.fst).Nodup := by
  unfold importSvgCollections at h
  cases htr : findSvgDirectories t with
  | error e =>
    rw [htr] at h
    exact Except.noConfusion h
  | ok dirs =>
    rw [htr] at h
    injection h with h2
    subst h2
    have hread := traverseDir_ok_readable [] t dirs htr
    have hdirs : dirs = (nodesWithPaths [] t).filter (fun pf => qualifies pf.2) := by
      have h3 : findSvgDirectories t =
          Except.ok ((nodesWithPaths [] t).filter (fun pf => qualifies pf.2)) :=
        traverseDir_eq [] t hread
      rw [htr] at h3
      exact Except.ok.inj h3
    have hkeysub := filterMap_keys_sublist dirs
      (fun pf =>
        let exported := exportIcons (processIconSet (buildCollection pf.2))
        if exported.length > 0 then some (collectionKey ns (joinSegs pf.1), exported)
        else Option.none)
      (fun pf => collectionKey ns (joinSegs pf.1))
      (by
        intro a pr hp
        dsimp only at hp
        by_cases hc : (exportIcons (processIconSet (buildCollection a.2))).length > 0
        · rw [if_pos hc] at hp
          injection hp with hp2
          rw [← hp2]
        · rw [if_neg hc] at hp
          exact Option.noConfusion hp)
    have hpathsub : (dirs.map Prod.fst).Sublist ((nodesWithPaths [] t).map Prod.fst) := by
      rw [hdirs]
      exact List.Sublist.map Prod.fst (List.filter_sublist _)
    have hpnodup : (dirs.map Prod.fst).Nodup :=
      List.Nodup.sublist hpathsub (nodes_paths_nodup [] t hU)
    have hgood : ∀ q ∈ dirs.map Prod.fst, ∀ s ∈ q, goodName s = true := by
      intro q hq
      exact nodes_paths_good [] t hN (fun s hs => absurd hs (List.not_mem_nil s)) q
        (hpathsub.subset hq)
    have hkeysnodup : (dirs.map (fun pf => collectionKey ns (joinSegs pf.1))).Nodup := by
      rw [show dirs.map (fun pf => collectionKey ns (joinSegs pf.1))
          = (dirs.map Prod.fst).map (fun q => collectionKey ns (joinSegs q)) from by
        rw [List.map_map]
        rfl]
      apply List.Nodup.map_on ?_ hpnodup
      intro x hx y hy hxy
      exact joinSegs_inj x y (hgood x hx) (hgood y hy) (collectionKey_inj ns _ _ hxy)
    exact List.Nodup.sublist hkeysub hkeysnodup

/-- Witness for the amended C4 on the clean-named partition tree. -/
theorem claim4_witness :
    (([("A", [("a", some (⟨true, [⟨[some Color.keywordCurrent]⟩]⟩ : Svg))]),
       ("A-B", [("b", some (⟨true, [⟨[some Color.keywordCurrent]⟩]⟩ : Svg))]),
       ("C", [("c", some (⟨true, [⟨[some Color.keywordCurrent]⟩]⟩ : Svg))])]
      : List (String × List (String × Option Svg))).map Prod.fst).Nodup :=
  claim4_amended treePartition Option.none (by decide) (by decide) _ (by decide)

/-- C6: a qualifying directory whose processed icon set exports no icons is
omitted from the multi-collection result (its key maps to nothing), while the
single-collection import of a readable directory with all icons rejected
still returns an empty icons mapping instead of failing. -/
theorem claim6_empty_collections (t : DirTree) (ns : Option String)
    (res : List (String × List (String × Option Svg)))
    (p : List String) (files : List SvgFile)
    (hU : uniqueNames t = true) (hN : namesClean t = true)
    (hok : importSvgCollections ns t = Except.ok res)
    (hq : (p, files) ∈ nodesWithPaths [] t)
    (hsvg : qualifies files = true)
    (hempty : exportIcons (processIconSet (buildCollection files)) = []) :
    (∀ ex, (collectionKey ns (joinSegs p), ex) ∉ res) ∧
    (∀ t2 files2, ownFilesE t2 = Except.ok files2 →
      exportIcons (processIconSet (buildCollection files2)) = [] →
      importSvgCollection t2 false = Except.ok []) := by
  constructor
  · intro ex hmem
    unfold importSvgCollections at hok
    cases htr : findSvgDirectories t with
    | error e =>
      rw [htr] at hok
      exact Except.noConfusion hok
    | ok dirs =>
      rw [htr] at hok
      have hok2 := Except.ok.inj hok
      rw [← hok2] at hmem
      obtain ⟨pf, hpf, hpfsome⟩ := List.mem_filterMap.mp hmem
      dsimp only at hpfsome
      by_cases hc : (exportIcons (processIconSet (buildCollection pf.2))).length > 0
      · rw [if_pos hc] at hpfsome
        have h3 := Option.some.inj hpfsome
        have hkey : collectionKey ns (joinSegs pf.1) = collectionKey ns (joinSegs p) :=
          congrArg Prod.fst h3
        have hjoin := collectionKey_inj ns _ _ hkey
        have hread := traverseDir_ok_readable [] t dirs htr
        have hdirs : dirs = (nodesWithPaths [] t).filter (fun pf => qualifies pf.2) := by
          have h4 : findSvgDirectories t =
              Except.ok ((nodesWithPaths [] t).filter (fun pf => qualifies pf.2)) :=
            traverseDir_eq [] t hread
          rw [htr] at h4
          exact Except.ok.inj h4
        have hpfnodes : pf ∈ nodesWithPaths [] t := by
          rw [hdirs] at hpf
          exact List.mem_of_mem_filter hpf
        have hgoodAll := nodes_paths_good [] t hN
          (fun s hs => absurd hs (List.not_mem_nil s))
        have hgood1 : ∀ s ∈ pf.1, goodName s = true :=
          hgoodAll pf.1 (List.mem_map.mpr ⟨pf, hpfnodes, rfl⟩)
        have hgood2 : ∀ s ∈ p, goodName s = true :=
          hgoodAll p (List.mem_map.mpr ⟨(p, files), hq, rfl⟩)
        have hpeq : pf.1 = p := joinSegs_inj _ _ hgood1 hgood2 hjoin
        have hnodup := nodes_paths_nodup [] t hU
        have hpf_pair : (p, pf.2) ∈ nodesWithPaths [] t := by
          rw [← hpeq]
          exact Prod.mk.eta ▸ hpfnodes
        have hfeq : pf.2 = files := nodupKeys_mem_unique _ hnodup hpf_pair hq
        rw [hfeq, hempty] at hc
        exact absurd hc (by simp)
      · rw [if_neg hc] at hpfsome
        exact Option.noConfusion hpfsome
  · intro t2 files2 hown hemp2
    unfold importSvgCollection
    rw [show (if (false : Bool) then collectFilesAll t2 else ownFilesE t2)
        = ownFilesE t2 from rfl, hown]
    dsimp only
    rw [hemp2]

/-- Witness for C6: one directory whose only icon is rejected beside one
valid directory. -/
theorem claim6_witness :
    (∀ ex, (collectionKey Option.none (joinSegs ["broken"]), ex) ∉
      ([("fine", [("y", some (⟨true, [⟨[some Color.keywordCurrent]⟩]⟩ : Svg))])] :
        List (String × List (String × Option Svg)))) ∧
    (∀ t2 files2, ownFilesE t2 = Except.ok files2 →
      exportIcons (processIconSet (buildCollection files2)) = [] →
      importSvgCollection t2 false = Except.ok []) :=
  claim6_empty_collections treeEmptyCollection Option.none _ ["broken"]
    [SvgFile.mk "x.svg" (some svgBadDemo)]
    (by decide) (by decide) (by decide) (by decide) (by decide) (by decide)

/-- C10: supplying the empty string as the namespace yields exactly the same
multi-collection result as supplying no namespace at all, because the key
expression tests JS truthiness of the supplied string. -/
theorem claim10_empty_string_namespace (t : DirTree) :
    importSvgCollections (some "") t = importSvgCollections Option.none t := by
  unfold importSvgCollections
  cases htr : findSvgDirectories t with
  | error e => rfl
  | ok dirs =>
    dsimp only
    refine congrArg Except.ok (list_filterMap_congr _ _ dirs ?_)
    intro pf _
    simp [collectionKey]
